import Mathlib

/-!
Shallow embedding of the Epoch event-sourcing library core:
the version algebra (`src/repository/mod.rs`), the versioned in-memory
multi-stream event repository (`src/repository/in_memory/versioned_with_streams/mod.rs`),
the versioned in-memory state repository (`src/repository/in_memory/state/versioned.rs`),
and the Load-Decide-Append strategy (`src/strategies/mod.rs`).

Rust `HashMap<String, _>` is modelled as an association list with
last-write-wins insert; `usize` as `Nat`; panics (slice out of range,
`len() - 1` underflow on `usize`) as `Option.none`; fallible results as
`Except`.  Mutation is explicit state passing.
-/

namespace Epoch

instance {ε α : Type} [DecidableEq ε] [DecidableEq α] : DecidableEq (Except ε α) := fun x y =>
  match x, y with
  | .ok a, .ok b =>
      if h : a = b then isTrue (congrArg Except.ok h)
      else isFalse (fun hh => h (Except.ok.inj hh))
  | .ok _, .error _ => isFalse (fun hh => Except.noConfusion hh)
  | .error _, .ok _ => isFalse (fun hh => Except.noConfusion hh)
  | .error a, .error b =>
      if h : a = b then isTrue (congrArg Except.error h)
      else isFalse (fun hh => h (Except.error.inj hh))

/-- `RepositoryVersion` from `src/repository/mod.rs`. -/
inductive RepositoryVersion (V : Type) where
  | Any : RepositoryVersion V
  | Exact (v : V) : RepositoryVersion V
  | NoStream : RepositoryVersion V
  | StreamExists : RepositoryVersion V
deriving DecidableEq

/-- `VersionDiff` from `src/repository/mod.rs`: expected/actual pair carried by conflicts. -/
structure VersionDiff (V : Type) where
  expected : RepositoryVersion V
  actual : RepositoryVersion V
deriving DecidableEq

/-- `VersionedRepositoryError` from `src/repository/event.rs`. -/
inductive VersionedRepositoryError (RepoErr V : Type) where
  | VersionConflict (d : VersionDiff V) : VersionedRepositoryError RepoErr V
  | RepoErr (e : RepoErr) : VersionedRepositoryError RepoErr V
deriving DecidableEq

/-- The single error variant of the in-memory versioned stream repository
(`src/repository/in_memory/versioned_with_streams/error.rs`). -/
inductive InMemoryError where
  | VersionConflict (d : VersionDiff Nat) : InMemoryError
deriving DecidableEq

/-- The `From<Error>` impl at the bottom of
`src/repository/in_memory/versioned_with_streams/mod.rs`. -/
def InMemoryError.intoVersioned : InMemoryError → VersionedRepositoryError InMemoryError Nat
  | .VersionConflict d => .VersionConflict d

/-- Per-stream storage cell (`InMemoryEventRepositoryState` in
`src/repository/in_memory/simple.rs`): an event list and the index of its last event. -/
structure InMemoryEventRepositoryState (E : Type) where
  events : List E
  position : Nat
deriving DecidableEq

/-- `InMemoryEventRepositoryState::new()`: empty events, position 0. -/
def InMemoryEventRepositoryState.new (E : Type) : InMemoryEventRepositoryState E :=
  { events := [], position := 0 }

/-- Association-list model of the `HashMap<String, InMemoryEventRepositoryState<E>>`. -/
abbrev StreamMap (E : Type) := List (String × InMemoryEventRepositoryState E)

/-- `HashMap::get`. -/
def lookupStream {E : Type} : StreamMap E → String → Option (InMemoryEventRepositoryState E)
  | [], _ => none
  | (k, st) :: rest, key => if k = key then some st else lookupStream rest key

/-- `HashMap::insert` (replace if present). -/
def insertStream {E : Type} : StreamMap E → String → InMemoryEventRepositoryState E → StreamMap E
  | [], key, st => [(key, st)]
  | (k, st0) :: rest, key, st =>
      if k = key then (k, st) :: rest else (k, st0) :: insertStream rest key st

/-- `InMemoryEventRepository` from
`src/repository/in_memory/versioned_with_streams/mod.rs`. -/
structure InMemoryEventRepository (E : Type) where
  stream_name : String
  state : StreamMap E
deriving DecidableEq

/-- `InMemoryEventRepository::new`. -/
def InMemoryEventRepository.new (E : Type) (stream_name : String) : InMemoryEventRepository E :=
  { stream_name := stream_name, state := [] }

/-- `get_base_stream_key`. -/
def InMemoryEventRepository.get_base_stream_key {E : Type} (repo : InMemoryEventRepository E) :
    String :=
  repo.stream_name

/-- `get_stream_key`: `format!("{}/{}", stream_name, id)` when an id is given. -/
def InMemoryEventRepository.get_stream_key {E : Type} (repo : InMemoryEventRepository E)
    (stream_id : Option String) : String :=
  match stream_id with
  | some id => repo.stream_name ++ "/" ++ id
  | none => repo.stream_name

/-- `get_stream_or_new`: returns the stored cell (inserting a fresh empty one when absent)
together with the possibly-extended repository. -/
def get_stream_or_new {E : Type} (repo : InMemoryEventRepository E) (key : String) :
    InMemoryEventRepositoryState E × InMemoryEventRepository E :=
  match lookupStream repo.state key with
  | some st => (st, repo)
  | none =>
      (InMemoryEventRepositoryState.new E,
        { stream_name := repo.stream_name,
          state := insertStream repo.state key (InMemoryEventRepositoryState.new E) })

/-- `index_from_version`: `Exact(v) => v, _ => 0`. -/
def index_from_version : RepositoryVersion Nat → Nat
  | .Exact v => v
  | _ => 0

/-- `version_from_index`. -/
def version_from_index (index : Nat) : RepositoryVersion Nat :=
  .Exact index

/-- Rust slice `xs[a..b]`: panics (`none`) unless `a ≤ b ≤ xs.len()`. -/
def sliceOpt {E : Type} (xs : List E) (a b : Nat) : Option (List E) :=
  if a ≤ b ∧ b ≤ xs.length then some ((xs.drop a).take (b - a)) else none

/-- `load_from_version`: slice of the stored events from the version's index to
`position + 1`; `([], Exact 0)` when the stream key is absent.  `none` models the
slice panic. -/
def InMemoryEventRepository.load_from_version {E : Type} (repo : InMemoryEventRepository E)
    (version : RepositoryVersion Nat) (id : Option String) :
    Option (List E × RepositoryVersion Nat) :=
  let stream_key := repo.get_stream_key id
  match lookupStream repo.state stream_key with
  | some stream_state =>
      (sliceOpt stream_state.events (index_from_version version) (stream_state.position + 1)).map
        (fun evs => (evs, RepositoryVersion.Exact stream_state.position))
  | none => some ([], RepositoryVersion.Exact 0)

/-- `load`: `load_from_version` at `Any`. -/
def InMemoryEventRepository.load {E : Type} (repo : InMemoryEventRepository E)
    (id : Option String) : Option (List E × RepositoryVersion Nat) :=
  repo.load_from_version RepositoryVersion.Any id

/-- Overwrite one key of the stream map (the effect of assigning through the
locked `MutexGuard` of that key's cell). -/
def setStream {E : Type} (repo : InMemoryEventRepository E) (key : String)
    (cell : InMemoryEventRepositoryState E) : InMemoryEventRepository E :=
  { stream_name := repo.stream_name, state := insertStream repo.state key cell }

/-- `append` from `src/repository/in_memory/versioned_with_streams/mod.rs`:
guard `position == index_from_version(version)`, extend the per-stream cell, set its
position to `len - 1`, mirror the batch into the base (category) stream, or report a
`VersionConflict(expected = passed version, actual = Exact(position))`.  `none` models
the `len() - 1` underflow panic on an empty cell. -/
def InMemoryEventRepository.append {E : Type} (repo : InMemoryEventRepository E)
    (version : RepositoryVersion Nat) (stream : String) (events : List E) :
    Option (Except (VersionedRepositoryError InMemoryError Nat)
        (List E × RepositoryVersion Nat) × InMemoryEventRepository E) :=
  let stream_key := repo.get_stream_key (some stream)
  let p := get_stream_or_new repo stream_key
  let st := p.1
  let repo1 := p.2
  if st.position = index_from_version version then
    let newEvents := st.events ++ events
    if newEvents.length = 0 then none
    else
      let position := newEvents.length - 1
      let repo2 := setStream repo1 stream_key ⟨newEvents, position⟩
      let base_key := repo.get_base_stream_key
      let q := get_stream_or_new repo2 base_key
      let bst := q.1
      let repo3 := q.2
      let baseEvents := bst.events ++ events
      if baseEvents.length = 0 then none
      else
        let sub_position := baseEvents.length - 1
        let repo4 := setStream repo3 base_key ⟨baseEvents, sub_position⟩
        some (.ok (events, .Exact position), repo4)
  else
    some (.error ((InMemoryError.VersionConflict
        ⟨version, version_from_index st.position⟩).intoVersioned), repo1)

/-- Observed cell of a stream key: the stored cell, or an empty cell for an absent key. -/
def streamOf {E : Type} (repo : InMemoryEventRepository E) (key : String) :
    InMemoryEventRepositoryState E :=
  (lookupStream repo.state key).getD (InMemoryEventRepositoryState.new E)

/-- Outcome component of `append` (the `Result` a Rust caller sees). -/
def appendOutcome {E : Type} (repo : InMemoryEventRepository E)
    (version : RepositoryVersion Nat) (stream : String) (events : List E) :
    Option (Except (VersionedRepositoryError InMemoryError Nat)
        (List E × RepositoryVersion Nat)) :=
  (repo.append version stream events).map Prod.fst

/-- Post-state component of `append` (the repository after the call). -/
def appendRepo {E : Type} (repo : InMemoryEventRepository E)
    (version : RepositoryVersion Nat) (stream : String) (events : List E) :
    InMemoryEventRepository E :=
  ((repo.append version stream events).map Prod.snd).getD repo

/-! ## In-memory versioned state (snapshot) repository
(`src/repository/in_memory/state/versioned.rs`) -/

/-- The snapshot repository's error type. -/
inductive StateRepoError where
  | ExactStreamVersionMustBeKnown : StateRepoError
deriving DecidableEq

/-- `VersionedState`: the cell behind the mutex of `InMemoryStateRepository`. -/
structure VersionedState (State : Type) where
  data : State
  version : RepositoryVersion Nat
deriving DecidableEq

/-- `VersionedState::new`: initial version is `StreamExists`. -/
def VersionedState.new {State : Type} (data : State) : VersionedState State :=
  { data := data, version := RepositoryVersion.StreamExists }

/-- `InMemoryStateRepository::version_to_usize`: `Exact(v) ↦ v`, `NoStream ↦ 0`,
`StreamExists ↦ 0`, `Any ↦ Err(ExactStreamVersionMustBeKnown)`. -/
def version_to_usize (version : RepositoryVersion Nat) :
    Except (VersionedRepositoryError StateRepoError Nat) Nat :=
  match version with
  | .Exact exact => .ok exact
  | .NoStream => .ok 0
  | .StreamExists => .ok 0
  | .Any => .error (.RepoErr .ExactStreamVersionMustBeKnown)

/-- `InMemoryStateRepository::version_check`: numeric comparison of `current` (stored,
evaluated first) and `incoming`; `VersionDiff::new(current, incoming)` on mismatch. -/
def version_check (current incoming : RepositoryVersion Nat) :
    Except (VersionedRepositoryError StateRepoError Nat) Unit :=
  match version_to_usize current with
  | .error e => .error e
  | .ok c =>
      match version_to_usize incoming with
      | .error e => .error e
      | .ok i =>
          if c = i then .ok ()
          else .error (.VersionConflict ⟨current, incoming⟩)

/-- `InMemoryStateRepository::bump_version`. -/
def bump_version (version : RepositoryVersion Nat) :
    Except (VersionedRepositoryError StateRepoError Nat) (RepositoryVersion Nat) :=
  match version_to_usize version with
  | .error e => .error e
  | .ok n => .ok (.Exact (n + 1))

/-- `InMemoryStateRepository::save`: check the stored version against the incoming one,
then overwrite the data and bump the stored version.  Returns the outcome and the
post-call cell (unchanged on error, mirroring the `?` early returns). -/
def InMemoryStateRepository.save {State : Type} (repo : VersionedState State)
    (version : RepositoryVersion Nat) (state : State) :
    Except (VersionedRepositoryError StateRepoError Nat) State × VersionedState State :=
  match version_check repo.version version with
  | .error e => (.error e, repo)
  | .ok _ =>
      let repo1 : VersionedState State := { repo with data := state }
      match bump_version repo1.version with
      | .error e => (.error e, repo1)
      | .ok v => (.ok state, { repo1 with version := v })

/-- `InMemoryStateRepository::reify`. -/
def InMemoryStateRepository.reify {State : Type} (repo : VersionedState State) :
    State × RepositoryVersion Nat :=
  (repo.data, repo.version)

/-! ## Load-Decide-Append strategy (`src/strategies/mod.rs`)

`execute` is generic over the repository and decider traits; the interface record
below mirrors `VersionedEventRepositoryWithStreams` (only `append` takes `&mut self`)
and `DeciderWithContext`/`Evolver`. -/

/-- `StreamState` from `src/strategies/mod.rs`. -/
inductive StreamState (T : Type) where
  | New : StreamState T
  | Existing (t : T) : StreamState T

/-- `LoadDecideAppendError` from `src/strategies/mod.rs`. -/
inductive LoadDecideAppendError (DecideErr RepoErr : Type) where
  | OccMaxRetries : LoadDecideAppendError DecideErr RepoErr
  | VersionError : LoadDecideAppendError DecideErr RepoErr
  | DecideErr (e : DecideErr) : LoadDecideAppendError DecideErr RepoErr
  | RepositoryErr (e : RepoErr) : LoadDecideAppendError DecideErr RepoErr
deriving DecidableEq

/-- `LoadDecideAppend::to_lda_error`. -/
def to_lda_error {DecideErr RepoErr V : Type} :
    VersionedRepositoryError RepoErr V → LoadDecideAppendError DecideErr RepoErr
  | .VersionConflict _ => .VersionError
  | .RepoErr e => .RepositoryErr e

/-- Interface of `VersionedEventRepositoryWithStreams` over an explicit backend state
`σ`: reads leave `σ` untouched (`&self`), `append` returns the new `σ` (`&mut self`);
`none` models a panic inside the backend. -/
structure RepoModel (σ E Sid V RepoErr : Type) where
  load : σ → Option Sid →
    Option (Except (VersionedRepositoryError RepoErr V) (List E × RepositoryVersion V))
  load_from_version : σ → RepositoryVersion V → Option Sid →
    Option (Except (VersionedRepositoryError RepoErr V) (List E × RepositoryVersion V))
  append : σ → RepositoryVersion V → Sid → List E →
    Option (Except (VersionedRepositoryError RepoErr V) (List E × RepositoryVersion V) × σ)

/-- Interface of `DeciderWithContext` + `Evolver`. -/
structure DeciderModel (Ctx State Cmd E DomErr : Type) where
  init : State
  evolve : State → E → State
  decide : Ctx → State → Cmd → Except DomErr (List E)

/-- `StreamIdFromEvent::from`: the stream id of an event is
`event_entity_id_into(e.get_id())` (`src/repository/mod.rs` lines 58-64). -/
def streamIdFromEvent {E EId Sid : Type} (get_id : E → EId) (event_entity_id_into : EId → Sid)
    (e : E) : Sid :=
  event_entity_id_into (get_id e)

/-- The body of `LoadDecideAppend::execute`'s `for r in 1..retrys.unwrap_or(20)` loop.
`fuel` is the number of remaining iterations.  Each iteration folds the accumulated
events into `state`, runs `decide`, derives the stream id (returning `Ok(vec![])` when
`New` produced no events), and tries `append`; a `VersionConflict` triggers catch-up
via `load_from_version` and another iteration. -/
def executeLoop {σ E Sid V RepoErr Ctx State Cmd DomErr : Type}
    (repo : RepoModel σ E Sid V RepoErr) (dec : DeciderModel Ctx State Cmd E DomErr)
    (stream_id_from : E → Sid) (stream_state : StreamState Sid) (ctx : Ctx) (cmd : Cmd) :
    Nat → σ → State → List E → RepositoryVersion V →
    Option (Except (LoadDecideAppendError DomErr RepoErr) (List E) × σ)
  | 0, s, _, _, _ => some (.error .OccMaxRetries, s)
  | fuel + 1, s, state, decider_evts, version =>
    let state' := decider_evts.foldl dec.evolve state
    match dec.decide ctx state' cmd with
    | .error e => some (.error (.DecideErr e), s)
    | .ok new_evts =>
      let streamRes : Option Sid :=
        match stream_state with
        | .New =>
            match new_evts with
            | [] => none
            | evt :: _ => some (stream_id_from evt)
        | .Existing sid => some sid
      match streamRes with
      | none => some (.ok [], s)
      | some stream =>
        match repo.append s version stream new_evts with
        | none => none
        | some (.ok (appended, _), s') => some (.ok appended, s')
        | some (.error (.RepoErr e), s') => some (.error (.RepositoryErr e), s')
        | some (.error (.VersionConflict _), s') =>
            match repo.load_from_version s' version (some stream) with
            | none => none
            | some (.error e) => some (.error (to_lda_error e), s')
            | some (.ok (catchup, new_version)) =>
                executeLoop repo dec stream_id_from stream_state ctx cmd fuel s' state'
                  (decider_evts ++ catchup) new_version

/-- `LoadDecideAppend::execute` (`src/strategies/mod.rs` lines 80-152): initial
`(decider_evts, version)` is `([], NoStream)` for `New` and the result of `load` for
`Existing`; then the retry loop runs `retrys.unwrap_or(20) - 1` times
(Rust `for r in 1..n`), ending in `OccMaxRetries`. -/
def execute {σ E Sid V RepoErr Ctx State Cmd DomErr : Type}
    (repo : RepoModel σ E Sid V RepoErr) (dec : DeciderModel Ctx State Cmd E DomErr)
    (stream_id_from : E → Sid) (s : σ) (stream_state : StreamState Sid)
    (ctx : Ctx) (cmd : Cmd) (retrys : Option Nat) :
    Option (Except (LoadDecideAppendError DomErr RepoErr) (List E) × σ) :=
  let fuel := retrys.getD 20 - 1
  match stream_state with
  | .New =>
      executeLoop repo dec stream_id_from .New ctx cmd fuel s dec.init [] .NoStream
  | .Existing sid =>
      match repo.load s (some sid) with
      | none => none
      | some (.error e) => some (.error (to_lda_error e), s)
      | some (.ok (evts, version)) =>
          executeLoop repo dec stream_id_from (.Existing sid) ctx cmd fuel s dec.init
            evts version

/-- The in-memory repository packaged as a `RepoModel` (its reads never produce a
repository error). -/
def InMemoryEventRepository.model (E : Type) :
    RepoModel (InMemoryEventRepository E) E String Nat InMemoryError where
  load := fun s id => (s.load id).map Except.ok
  load_from_version := fun s v id => (s.load_from_version v id).map Except.ok
  append := fun s v sid evts => s.append v sid evts

/-! ## Traces of successful appends (for the category and per-stream read claims) -/

/-- One recorded `append` call: expected version, target stream id, batch. -/
structure AppendOp (E : Type) where
  version : RepositoryVersion Nat
  stream : String
  events : List E
deriving DecidableEq

/-- Run a sequence of `append` calls, requiring every one of them to succeed. -/
def runAppends {E : Type} (repo : InMemoryEventRepository E) :
    List (AppendOp E) → Option (InMemoryEventRepository E)
  | [] => some repo
  | op :: rest =>
      match repo.append op.version op.stream op.events with
      | some (Except.ok _, repo') => runAppends repo' rest
      | _ => none

/-- The batches a trace appended to stream `sid`, in commit order. -/
def batchesFor {E : Type} (sid : String) (ops : List (AppendOp E)) : List (List E) :=
  ops.filterMap (fun op => if op.stream = sid then some op.events else none)

/-- All events a trace appended to stream `sid`, in commit order. -/
def eventsFor {E : Type} (sid : String) (ops : List (AppendOp E)) : List E :=
  (batchesFor sid ops).flatten

/-- All events a trace appended (to any stream), in commit order. -/
def allEvents {E : Type} (ops : List (AppendOp E)) : List E :=
  (ops.map AppendOp.events).flatten

/-- The stored cell corresponding to a history of events: absent when no event was ever
appended, otherwise the events with position = last index. -/
def streamCell {E : Type} : List E → Option (InMemoryEventRepositoryState E)
  | [] => none
  | e :: rest => some ⟨e :: rest, (e :: rest).length - 1⟩

/-- Invariant tying a repository reached from empty by the successful trace `ops` to
the trace: the per-stream cells hold exactly the per-stream events and the base
(category) cell holds all events, each in commit order. -/
def goodRepo {E : Type} (name : String) (ops : List (AppendOp E))
    (repo : InMemoryEventRepository E) : Prop :=
  repo.stream_name = name ∧
  (∀ sid : String,
    lookupStream repo.state (name ++ "/" ++ sid) = streamCell (eventsFor sid ops)) ∧
  lookupStream repo.state name = streamCell (allEvents ops)

/-- An adversarial repository under permanent contention: its state is a counter of
`append` calls, every `append` fails with a `VersionConflict`, and reads return an
empty tail at `Exact 0`.  Used to count the strategy's decide/append attempts. -/
def conflictRepoModel : RepoModel Nat Nat String Nat Unit :=
  { load := fun _ _ => some (.ok ([], .Exact 0))
    load_from_version := fun _ _ _ => some (.ok ([], .Exact 0))
    append := fun s v _ _ => some (.error (.VersionConflict ⟨v, .Exact 0⟩), s + 1) }

/-- A trivial decider that always produces the single event `1`. -/
def oneEventDecider : DeciderModel Unit Unit Unit Nat Unit :=
  { init := (), evolve := fun _ _ => (), decide := fun _ _ _ => .ok [1] }

/-- A trivial decider that always refuses with domain error `42`. -/
def constErrDecider : DeciderModel Unit Unit Unit Nat Nat :=
  { init := (), evolve := fun _ _ => (), decide := fun _ _ _ => .error 42 }

/-- A trivial decider that always produces no events. -/
def emptyDecider : DeciderModel Unit Unit Unit Nat Unit :=
  { init := (), evolve := fun _ _ => (), decide := fun _ _ _ => .ok [] }

/-- A trivial decider that always produces the single event `41`. -/
def const41Decider : DeciderModel Unit Unit Unit Nat Unit :=
  { init := (), evolve := fun _ _ => (), decide := fun _ _ _ => .ok [41] }

/-! ## Helper lemmas: association list, stream keys, `get_stream_or_new` -/

theorem lookupStream_insert_self {E : Type} (m : StreamMap E) (k : String)
    (st : InMemoryEventRepositoryState E) :
    lookupStream (insertStream m k st) k = some st := by
  induction m with
  | nil => simp [insertStream, lookupStream]
  | cons hd tl ih =>
      obtain ⟨k0, st0⟩ := hd
      by_cases h : k0 = k
      · simp [insertStream, h, lookupStream]
      · simp [insertStream, h, lookupStream, ih]

theorem lookupStream_insert_ne {E : Type} (m : StreamMap E) {k k' : String}
    (st : InMemoryEventRepositoryState E) (h : k ≠ k') :
    lookupStream (insertStream m k st) k' = lookupStream m k' := by
  induction m with
  | nil => simp [insertStream, lookupStream, h]
  | cons hd tl ih =>
      obtain ⟨k0, st0⟩ := hd
      by_cases h0 : k0 = k
      · subst h0
        simp [insertStream, lookupStream, h]
      · simp [insertStream, h0, lookupStream, ih]

theorem stream_key_ne_base (name sid : String) : name ++ "/" ++ sid ≠ name := by
  intro h
  have hlen := congrArg String.length h
  rw [String.length_append, String.length_append] at hlen
  have hone : ("/" : String).length = 1 := rfl
  omega

theorem stream_key_inj (name : String) {a b : String}
    (h : name ++ "/" ++ a = name ++ "/" ++ b) : a = b := by
  have hd := congrArg String.data h
  rw [String.data_append, String.data_append, String.data_append, String.data_append] at hd
  exact String.ext (List.append_cancel_left hd)

theorem get_stream_key_some {E : Type} (repo : InMemoryEventRepository E) (id : String) :
    repo.get_stream_key (some id) = repo.stream_name ++ "/" ++ id := rfl

theorem get_stream_key_none {E : Type} (repo : InMemoryEventRepository E) :
    repo.get_stream_key none = repo.stream_name := rfl

theorem get_stream_or_new_fst {E : Type} (repo : InMemoryEventRepository E) (key : String) :
    (get_stream_or_new repo key).1 = streamOf repo key := by
  unfold get_stream_or_new streamOf
  cases h : lookupStream repo.state key <;> simp [h]

theorem get_stream_or_new_name {E : Type} (repo : InMemoryEventRepository E) (key : String) :
    (get_stream_or_new repo key).2.stream_name = repo.stream_name := by
  unfold get_stream_or_new
  cases h : lookupStream repo.state key <;> simp [h]

theorem get_stream_or_new_lookup_self {E : Type} (repo : InMemoryEventRepository E)
    (key : String) :
    lookupStream (get_stream_or_new repo key).2.state key = some (streamOf repo key) := by
  unfold get_stream_or_new streamOf
  cases h : lookupStream repo.state key <;>
    simp [h, lookupStream_insert_self]

theorem get_stream_or_new_lookup_ne {E : Type} (repo : InMemoryEventRepository E)
    {key k' : String} (h : k' ≠ key) :
    lookupStream (get_stream_or_new repo key).2.state k' = lookupStream repo.state k' := by
  unfold get_stream_or_new
  cases hl : lookupStream repo.state key <;>
    simp [hl, lookupStream_insert_ne _ _ (Ne.symm h)]

theorem streamOf_get_stream_or_new {E : Type} (repo : InMemoryEventRepository E)
    (key k' : String) :
    streamOf (get_stream_or_new repo key).2 k' = streamOf repo k' := by
  by_cases h : k' = key
  · subst h
    unfold streamOf
    rw [get_stream_or_new_lookup_self]
    rfl
  · unfold streamOf
    rw [get_stream_or_new_lookup_ne repo h]

theorem setStream_name {E : Type} (repo : InMemoryEventRepository E) (key : String)
    (cell : InMemoryEventRepositoryState E) :
    (setStream repo key cell).stream_name = repo.stream_name := rfl

theorem lookup_setStream_self {E : Type} (repo : InMemoryEventRepository E) (key : String)
    (cell : InMemoryEventRepositoryState E) :
    lookupStream (setStream repo key cell).state key = some cell :=
  lookupStream_insert_self repo.state key cell

theorem lookup_setStream_ne {E : Type} (repo : InMemoryEventRepository E)
    {key k' : String} (cell : InMemoryEventRepositoryState E) (h : k' ≠ key) :
    lookupStream (setStream repo key cell).state k' = lookupStream repo.state k' :=
  lookupStream_insert_ne repo.state cell (Ne.symm h)

theorem streamOf_setStream_self {E : Type} (repo : InMemoryEventRepository E) (key : String)
    (cell : InMemoryEventRepositoryState E) :
    streamOf (setStream repo key cell) key = cell := by
  unfold streamOf
  rw [lookup_setStream_self]
  rfl

theorem streamOf_setStream_ne {E : Type} (repo : InMemoryEventRepository E)
    {key k' : String} (cell : InMemoryEventRepositoryState E) (h : k' ≠ key) :
    streamOf (setStream repo key cell) k' = streamOf repo k' := by
  unfold streamOf
  rw [lookup_setStream_ne repo cell h]

/-- The per-stream key `{name}/{id}` is never the base (category) key. -/
theorem base_ne_stream_key {E : Type} (repo : InMemoryEventRepository E) (stream : String) :
    repo.get_base_stream_key ≠ repo.get_stream_key (some stream) := by
  rw [get_stream_key_some]
  exact fun hh => stream_key_ne_base repo.stream_name stream hh.symm

theorem name_ne_stream_key {E : Type} (repo : InMemoryEventRepository E) (stream : String) :
    repo.stream_name ≠ repo.get_stream_key (some stream) :=
  base_ne_stream_key repo stream

/-- Project the post-state out of a known `append` computation. -/
theorem appendRepo_eq {E : Type} {repo : InMemoryEventRepository E}
    {v : RepositoryVersion Nat} {s : String} {evts : List E}
    {o : Except (VersionedRepositoryError InMemoryError Nat) (List E × RepositoryVersion Nat)}
    {r' : InMemoryEventRepository E} (h : repo.append v s evts = some (o, r')) :
    appendRepo repo v s evts = r' := by
  simp [appendRepo, h]

/-- Project the outcome out of a known `append` computation. -/
theorem appendOutcome_eq {E : Type} {repo : InMemoryEventRepository E}
    {v : RepositoryVersion Nat} {s : String} {evts : List E}
    {o : Except (VersionedRepositoryError InMemoryError Nat) (List E × RepositoryVersion Nat)}
    {r' : InMemoryEventRepository E} (h : repo.append v s evts = some (o, r')) :
    appendOutcome repo v s evts = some o := by
  simp [appendOutcome, h]

/-! ## Characterization of `append` -/

/-- Failed guard: `append` reports `VersionConflict(expected = passed version,
actual = Exact(position))` and only ensures the (empty) cell exists. -/
theorem append_conflict {E : Type} (repo : InMemoryEventRepository E)
    (version : RepositoryVersion Nat) (stream : String) (events : List E)
    (hg : (streamOf repo (repo.get_stream_key (some stream))).position ≠
        index_from_version version) :
    repo.append version stream events =
      some (.error (.VersionConflict
          ⟨version, .Exact (streamOf repo (repo.get_stream_key (some stream))).position⟩),
        (get_stream_or_new repo (repo.get_stream_key (some stream))).2) := by
  unfold InMemoryEventRepository.append
  simp only [get_stream_or_new_fst]
  rw [if_neg hg]
  simp [InMemoryError.intoVersioned, version_from_index]

/-- Passing guard but empty-cell-and-empty-batch: the `len() - 1` underflow (panic). -/
theorem append_none_of_new_nil {E : Type} (repo : InMemoryEventRepository E)
    (version : RepositoryVersion Nat) (stream : String) (events : List E)
    (hg : (streamOf repo (repo.get_stream_key (some stream))).position =
        index_from_version version)
    (hnil : (streamOf repo (repo.get_stream_key (some stream))).events ++ events = []) :
    repo.append version stream events = none := by
  unfold InMemoryEventRepository.append
  simp only [get_stream_or_new_fst]
  rw [if_pos hg]
  simp [hnil]

/-- Passing guard, non-empty per-stream extension, but empty base-stream extension:
the base-stream `len() - 1` underflow (panic). -/
theorem append_none_of_base_nil {E : Type} (repo : InMemoryEventRepository E)
    (version : RepositoryVersion Nat) (stream : String) (events : List E)
    (hg : (streamOf repo (repo.get_stream_key (some stream))).position =
        index_from_version version)
    (hne1 : (streamOf repo (repo.get_stream_key (some stream))).events ++ events ≠ [])
    (hnil2 : (streamOf repo repo.stream_name).events ++ events = []) :
    repo.append version stream events = none := by
  unfold InMemoryEventRepository.append
  simp only [get_stream_or_new_fst]
  rw [if_pos hg]
  have hlen1 : ¬(((streamOf repo (repo.get_stream_key (some stream))).events ++
      events).length = 0) := by
    simpa [List.length_eq_zero] using hne1
  rw [if_neg hlen1]
  simp only [get_stream_or_new_fst,
    streamOf_setStream_ne _ _ (base_ne_stream_key repo stream),
    streamOf_get_stream_or_new]
  have : (streamOf repo repo.get_base_stream_key).events ++ events = [] := hnil2
  simp [this]

/-- Passing guard, both extensions non-empty: the success path.  The batch lands at the
tail of the per-stream cell, the returned version is `Exact` of the new last index, the
base (category) cell receives the same batch, and every other key is untouched. -/
theorem append_success_spec {E : Type} (repo : InMemoryEventRepository E)
    (version : RepositoryVersion Nat) (stream : String) (events : List E)
    (hg : (streamOf repo (repo.get_stream_key (some stream))).position =
        index_from_version version)
    (hne1 : (streamOf repo (repo.get_stream_key (some stream))).events ++ events ≠ [])
    (hne2 : (streamOf repo repo.stream_name).events ++ events ≠ []) :
    repo.append version stream events =
      some (.ok (events,
          .Exact (((streamOf repo (repo.get_stream_key (some stream))).events ++
            events).length - 1)),
        appendRepo repo version stream events) ∧
    (appendRepo repo version stream events).stream_name = repo.stream_name ∧
    lookupStream (appendRepo repo version stream events).state
        (repo.get_stream_key (some stream)) =
      some ⟨(streamOf repo (repo.get_stream_key (some stream))).events ++ events,
        ((streamOf repo (repo.get_stream_key (some stream))).events ++ events).length - 1⟩ ∧
    lookupStream (appendRepo repo version stream events).state repo.stream_name =
      some ⟨(streamOf repo repo.stream_name).events ++ events,
        ((streamOf repo repo.stream_name).events ++ events).length - 1⟩ ∧
    (∀ k, k ≠ repo.get_stream_key (some stream) → k ≠ repo.stream_name →
      lookupStream (appendRepo repo version stream events).state k =
        lookupStream repo.state k) := by
  have hlen1 : ¬(((streamOf repo (repo.get_stream_key (some stream))).events ++
      events).length = 0) := by
    simpa [List.length_eq_zero] using hne1
  have hlen2 : ¬(((streamOf repo repo.stream_name).events ++ events).length = 0) := by
    simpa [List.length_eq_zero] using hne2
  have happ : repo.append version stream events =
      some (.ok (events,
          .Exact (((streamOf repo (repo.get_stream_key (some stream))).events ++
            events).length - 1)),
        setStream
          (get_stream_or_new
            (setStream (get_stream_or_new repo (repo.get_stream_key (some stream))).2
              (repo.get_stream_key (some stream))
              ⟨(streamOf repo (repo.get_stream_key (some stream))).events ++ events,
                ((streamOf repo (repo.get_stream_key (some stream))).events ++
                  events).length - 1⟩)
            repo.stream_name).2
          repo.stream_name
          ⟨(streamOf repo repo.stream_name).events ++ events,
            ((streamOf repo repo.stream_name).events ++ events).length - 1⟩) := by
    unfold InMemoryEventRepository.append
    simp only [get_stream_or_new_fst]
    rw [if_pos hg, if_neg hlen1]
    simp only [get_stream_or_new_fst,
      streamOf_setStream_ne _ _ (base_ne_stream_key repo stream),
      streamOf_get_stream_or_new]
    rw [show repo.get_base_stream_key = repo.stream_name from rfl]
    rw [if_neg hlen2]
  have hAR := appendRepo_eq happ
  refine ⟨by rw [hAR]; exact happ, ?_, ?_, ?_, ?_⟩
  · rw [hAR, setStream_name, get_stream_or_new_name, setStream_name, get_stream_or_new_name]
  · rw [hAR]
    rw [lookup_setStream_ne _ _ (Ne.symm (name_ne_stream_key repo stream))]
    rw [get_stream_or_new_lookup_ne _ (Ne.symm (name_ne_stream_key repo stream))]
    rw [lookup_setStream_self]
  · rw [hAR]
    rw [lookup_setStream_self]
  · intro k hk hkb
    rw [hAR]
    rw [lookup_setStream_ne _ _ hkb]
    rw [get_stream_or_new_lookup_ne _ hkb]
    rw [lookup_setStream_ne _ _ hk]
    rw [get_stream_or_new_lookup_ne _ hk]

/-- With a non-empty batch, `append` never reaches the underflow: it always returns
(success or conflict). -/
theorem append_isSome_of_ne_nil {E : Type} (repo : InMemoryEventRepository E)
    (version : RepositoryVersion Nat) (stream : String) (events : List E)
    (hne : events ≠ []) :
    (repo.append version stream events).isSome := by
  by_cases hg : (streamOf repo (repo.get_stream_key (some stream))).position =
      index_from_version version
  · have hne1 : (streamOf repo (repo.get_stream_key (some stream))).events ++ events ≠ [] :=
      fun h => hne (List.append_eq_nil.mp h).2
    have hne2 : (streamOf repo repo.stream_name).events ++ events ≠ [] :=
      fun h => hne (List.append_eq_nil.mp h).2
    rcases append_success_spec repo version stream events hg hne1 hne2 with ⟨happ, _⟩
    rw [happ]
    rfl
  · rw [append_conflict repo version stream events hg]
    rfl

/-! ## Characterization of `load` -/

theorem load_of_lookup_none {E : Type} (repo : InMemoryEventRepository E) (id : Option String)
    (h : lookupStream repo.state (repo.get_stream_key id) = none) :
    repo.load id = some ([], .Exact 0) := by
  unfold InMemoryEventRepository.load InMemoryEventRepository.load_from_version
  simp [h]

/-- On a well-formed cell (`position = len - 1`, at least one event) `load` returns the
stored events and `Exact(position)`. -/
theorem load_of_lookup_wf {E : Type} (repo : InMemoryEventRepository E) (id : Option String)
    (es : List E) (hne : es ≠ [])
    (h : lookupStream repo.state (repo.get_stream_key id) = some ⟨es, es.length - 1⟩) :
    repo.load id = some (es, .Exact (es.length - 1)) := by
  unfold InMemoryEventRepository.load InMemoryEventRepository.load_from_version
  simp only [h]
  have hpos : 0 < es.length := List.length_pos.mpr hne
  have hsub : es.length - 1 + 1 = es.length := by omega
  simp [sliceOpt, index_from_version, hsub]

/-- Inversion: a successful `append` implies the guard matched, both extensions were
non-empty, and fixes the returned value and post-state. -/
theorem append_ok_inversion {E : Type} {repo : InMemoryEventRepository E}
    {v : RepositoryVersion Nat} {s : String} {evts : List E}
    {res : List E × RepositoryVersion Nat} {r' : InMemoryEventRepository E}
    (h : repo.append v s evts = some (.ok res, r')) :
    (streamOf repo (repo.get_stream_key (some s))).position = index_from_version v ∧
    (streamOf repo (repo.get_stream_key (some s))).events ++ evts ≠ [] ∧
    (streamOf repo repo.stream_name).events ++ evts ≠ [] ∧
    res = (evts,
      .Exact (((streamOf repo (repo.get_stream_key (some s))).events ++ evts).length - 1)) ∧
    r' = appendRepo repo v s evts := by
  by_cases hg : (streamOf repo (repo.get_stream_key (some s))).position = index_from_version v
  · by_cases hn1 : (streamOf repo (repo.get_stream_key (some s))).events ++ evts = []
    · rw [append_none_of_new_nil repo v s evts hg hn1] at h
      exact absurd h (by simp)
    · by_cases hn2 : (streamOf repo repo.stream_name).events ++ evts = []
      · rw [append_none_of_base_nil repo v s evts hg hn1 hn2] at h
        exact absurd h (by simp)
      · rcases append_success_spec repo v s evts hg hn1 hn2 with ⟨happ, _⟩
        rw [happ] at h
        have hpair := Option.some.inj h
        have hres := congrArg Prod.fst hpair
        have hrepo := congrArg Prod.snd hpair
        simp only at hres hrepo
        exact ⟨hg, hn1, hn2, (Except.ok.inj hres).symm, hrepo.symm⟩
  · rw [append_conflict repo v s evts hg] at h
    exact absurd h (by simp)

/-! ## Trace lemmas (for the category and per-stream read claims) -/

theorem streamCell_of_ne_nil {E : Type} {es : List E} (h : es ≠ []) :
    streamCell es = some ⟨es, es.length - 1⟩ := by
  cases es with
  | nil => exact absurd rfl h
  | cons a l => rfl

theorem goodRepo_nil {E : Type} (name : String) :
    goodRepo name [] (InMemoryEventRepository.new E name) := by
  refine ⟨rfl, fun sid => rfl, rfl⟩

theorem eventsFor_append_op {E : Type} (sid : String) (ops : List (AppendOp E))
    (op : AppendOp E) :
    eventsFor sid (ops ++ [op]) =
      eventsFor sid ops ++ (if op.stream = sid then op.events else []) := by
  unfold eventsFor batchesFor
  rw [List.filterMap_append, List.flatten_append]
  congr 1
  by_cases h : op.stream = sid <;> simp [h]

theorem allEvents_append_op {E : Type} (ops : List (AppendOp E)) (op : AppendOp E) :
    allEvents (ops ++ [op]) = allEvents ops ++ op.events := by
  unfold allEvents
  simp

theorem mem_allEvents_of_mem_eventsFor {E : Type} {sid : String} {ops : List (AppendOp E)}
    {x : E} (h : x ∈ eventsFor sid ops) : x ∈ allEvents ops := by
  unfold eventsFor batchesFor at h
  unfold allEvents
  rw [List.mem_flatten] at h ⊢
  obtain ⟨l, hl, hx⟩ := h
  rw [List.mem_filterMap] at hl
  obtain ⟨op, hop, hif⟩ := hl
  refine ⟨op.events, List.mem_map_of_mem _ hop, ?_⟩
  by_cases hs : op.stream = sid
  · rw [if_pos hs] at hif
    cases Option.some.inj hif
    exact hx
  · rw [if_neg hs] at hif
    cases hif

theorem allEvents_ne_nil_of_eventsFor {E : Type} {sid : String} {ops : List (AppendOp E)}
    (h : eventsFor sid ops ≠ []) : allEvents ops ≠ [] := by
  obtain ⟨x, hx⟩ := List.exists_mem_of_ne_nil _ h
  exact List.ne_nil_of_mem (mem_allEvents_of_mem_eventsFor hx)

/-- One successful `append` extends the invariant by its own operation. -/
theorem goodRepo_step {E : Type} {name : String} {ops : List (AppendOp E)}
    {repo repo' : InMemoryEventRepository E} {v : RepositoryVersion Nat} {sid : String}
    {evts : List E} {o : List E × RepositoryVersion Nat}
    (h : goodRepo name ops repo)
    (hap : repo.append v sid evts = some (.ok o, repo')) :
    goodRepo name (ops ++ [⟨v, sid, evts⟩]) repo' := by
  obtain ⟨hname, hstreams, hbase⟩ := h
  rcases append_ok_inversion hap with ⟨hg, hn1, hn2, _, hrepo'⟩
  rcases append_success_spec repo v sid evts hg hn1 hn2 with ⟨_, hname', hkey, hbase', hothers⟩
  subst hrepo'
  have hkeyname : repo.get_stream_key (some sid) = name ++ "/" ++ sid := by
    rw [get_stream_key_some, hname]
  have holdkey : (streamOf repo (repo.get_stream_key (some sid))).events = eventsFor sid ops := by
    unfold streamOf
    rw [hkeyname, hstreams sid]
    cases hc : eventsFor sid ops with
    | nil => simp [streamCell, InMemoryEventRepositoryState.new]
    | cons a l => simp [streamCell]
  have holdbase : (streamOf repo repo.stream_name).events = allEvents ops := by
    unfold streamOf
    rw [hname, hbase]
    cases hc : allEvents ops with
    | nil => simp [streamCell, InMemoryEventRepositoryState.new]
    | cons a l => simp [streamCell]
  refine ⟨by rw [hname', hname], ?_, ?_⟩
  · intro sid'
    by_cases hs : sid' = sid
    · subst hs
      rw [← hkeyname, hkey, eventsFor_append_op, if_pos rfl, ← holdkey,
        streamCell_of_ne_nil hn1]
    · have hne_key : name ++ "/" ++ sid' ≠ repo.get_stream_key (some sid) := by
        rw [hkeyname]
        intro hh
        exact hs (stream_key_inj name hh)
      have hne_base : name ++ "/" ++ sid' ≠ repo.stream_name := by
        rw [hname]
        exact stream_key_ne_base name sid'
      rw [hothers _ hne_key hne_base, eventsFor_append_op, if_neg (fun hh => hs hh.symm)]
      rw [List.append_nil]
      exact hstreams sid'
  · rw [show name = repo.stream_name from hname.symm, hbase', allEvents_append_op,
      ← holdbase, streamCell_of_ne_nil hn2]

/-- A fully successful run starting from a good repository yields a good repository. -/
theorem runAppends_good {E : Type} {name : String} :
    ∀ (ops hist : List (AppendOp E)) (repo repo' : InMemoryEventRepository E),
      goodRepo name hist repo → runAppends repo ops = some repo' →
      goodRepo name (hist ++ ops) repo' := by
  intro ops
  induction ops with
  | nil =>
      intro hist repo repo' h hrun
      simp only [runAppends] at hrun
      cases Option.some.inj hrun
      simpa using h
  | cons op rest ih =>
      intro hist repo repo' h hrun
      simp only [runAppends] at hrun
      cases hap : repo.append op.version op.stream op.events with
      | none => rw [hap] at hrun; cases hrun
      | some pr =>
          obtain ⟨outc, repo1⟩ := pr
          cases outc with
          | error e => rw [hap] at hrun; cases hrun
          | ok o =>
              rw [hap] at hrun
              have hstep := goodRepo_step h hap
              have hrest := ih (hist ++ [op]) repo1 repo' hstep hrun
              rwa [List.append_assoc, List.singleton_append] at hrest

/-! ## Claims -/

/-- Claim C1: for every stream, every expected version, and every non-empty event
batch, `append` on the versioned in-memory event repository is atomic with respect to
the expected-version guard: if the guard matches the stream's current position, all
supplied events land contiguously at the tail and the returned new version is the
post-append last version; otherwise nothing is written to any stream (every key's
events and position are unchanged) and the call returns a `VersionConflict` whose
`expected` field is the version passed in and whose `actual` field is the stream's
current version. -/
theorem append_expected_version_atomicity {E : Type} (repo : InMemoryEventRepository E)
    (version : RepositoryVersion Nat) (stream : String) (events : List E)
    (hne : events ≠ []) :
    (index_from_version version =
        (streamOf repo (repo.get_stream_key (some stream))).position →
      appendOutcome repo version stream events =
        some (.ok (events,
          .Exact (((streamOf repo (repo.get_stream_key (some stream))).events ++
            events).length - 1))) ∧
      (streamOf (appendRepo repo version stream events)
          (repo.get_stream_key (some stream))).events =
        (streamOf repo (repo.get_stream_key (some stream))).events ++ events ∧
      (streamOf (appendRepo repo version stream events)
          (repo.get_stream_key (some stream))).position =
        ((streamOf repo (repo.get_stream_key (some stream))).events ++ events).length - 1) ∧
    (index_from_version version ≠
        (streamOf repo (repo.get_stream_key (some stream))).position →
      appendOutcome repo version stream events =
        some (.error (.VersionConflict
          ⟨version, .Exact (streamOf repo (repo.get_stream_key (some stream))).position⟩)) ∧
      ∀ k, streamOf (appendRepo repo version stream events) k = streamOf repo k) := by
  constructor
  · intro hg
    have hne1 : (streamOf repo (repo.get_stream_key (some stream))).events ++ events ≠ [] :=
      fun h => hne (List.append_eq_nil.mp h).2
    have hne2 : (streamOf repo repo.stream_name).events ++ events ≠ [] :=
      fun h => hne (List.append_eq_nil.mp h).2
    rcases append_success_spec repo version stream events hg.symm hne1 hne2 with
      ⟨happ, _, hkey, _, _⟩
    refine ⟨appendOutcome_eq happ, ?_, ?_⟩
    · simp [streamOf, hkey]
    · simp [streamOf, hkey]
  · intro hg
    have hc := append_conflict repo version stream events (Ne.symm hg)
    refine ⟨appendOutcome_eq hc, ?_⟩
    intro k
    rw [appendRepo_eq hc]
    exact streamOf_get_stream_or_new repo _ k

/-- Witness for C1 at a concrete input: empty repository, expected version `NoStream`,
batch `[7]`. -/
theorem append_expected_version_atomicity_witness :
    ([7] : List Nat) ≠ [] ∧
    ((index_from_version .NoStream =
        (streamOf (InMemoryEventRepository.new Nat "t")
          ((InMemoryEventRepository.new Nat "t").get_stream_key (some "s"))).position →
      appendOutcome (InMemoryEventRepository.new Nat "t") .NoStream "s" [7] =
        some (.ok ([7],
          .Exact (((streamOf (InMemoryEventRepository.new Nat "t")
            ((InMemoryEventRepository.new Nat "t").get_stream_key (some "s"))).events ++
            [7]).length - 1))) ∧
      (streamOf (appendRepo (InMemoryEventRepository.new Nat "t") .NoStream "s" [7])
          ((InMemoryEventRepository.new Nat "t").get_stream_key (some "s"))).events =
        (streamOf (InMemoryEventRepository.new Nat "t")
          ((InMemoryEventRepository.new Nat "t").get_stream_key (some "s"))).events ++ [7] ∧
      (streamOf (appendRepo (InMemoryEventRepository.new Nat "t") .NoStream "s" [7])
          ((InMemoryEventRepository.new Nat "t").get_stream_key (some "s"))).position =
        ((streamOf (InMemoryEventRepository.new Nat "t")
          ((InMemoryEventRepository.new Nat "t").get_stream_key (some "s"))).events ++
          [7]).length - 1) ∧
    (index_from_version .NoStream ≠
        (streamOf (InMemoryEventRepository.new Nat "t")
          ((InMemoryEventRepository.new Nat "t").get_stream_key (some "s"))).position →
      appendOutcome (InMemoryEventRepository.new Nat "t") .NoStream "s" [7] =
        some (.error (.VersionConflict
          ⟨.NoStream, .Exact (streamOf (InMemoryEventRepository.new Nat "t")
            ((InMemoryEventRepository.new Nat "t").get_stream_key (some "s"))).position⟩)) ∧
      ∀ k, streamOf (appendRepo (InMemoryEventRepository.new Nat "t") .NoStream "s" [7]) k =
        streamOf (InMemoryEventRepository.new Nat "t") k)) :=
  ⟨by decide,
    append_expected_version_atomicity (InMemoryEventRepository.new Nat "t") .NoStream "s" [7]
      (by decide)⟩

/-- Claim C3 counterexample: `Any` does not skip the guard.  After two events are
appended to stream `s` (position 1), a further `append` with expected version `Any`
returns `VersionConflict(expected = Any, actual = Exact 1)` instead of succeeding. -/
theorem any_version_skips_guard_cex :
    appendOutcome (InMemoryEventRepository.new Nat "t") .Any "s" [1, 2] =
      some (.ok ([1, 2], .Exact 1)) ∧
    appendOutcome (appendRepo (InMemoryEventRepository.new Nat "t") .Any "s" [1, 2])
        .Any "s" [3] =
      some (.error (.VersionConflict ⟨.Any, .Exact 1⟩)) := by
  decide

/-- Claim C3 (amended): the in-memory `index_from_version` collapses `Any` to index 0,
so an `append` with expected version `Any` does not skip the guard: it succeeds exactly
when the stream's current position is 0, and on a stream whose position is non-zero it
returns a `VersionConflict` carrying `Any` and the current position. -/
theorem any_version_guard_amended {E : Type} (repo : InMemoryEventRepository E)
    (stream : String) (events : List E) (hne : events ≠ []) :
    ((streamOf repo (repo.get_stream_key (some stream))).position = 0 →
      appendOutcome repo .Any stream events =
        some (.ok (events,
          .Exact (((streamOf repo (repo.get_stream_key (some stream))).events ++
            events).length - 1)))) ∧
    ((streamOf repo (repo.get_stream_key (some stream))).position ≠ 0 →
      appendOutcome repo .Any stream events =
        some (.error (.VersionConflict
          ⟨.Any, .Exact (streamOf repo (repo.get_stream_key (some stream))).position⟩))) := by
  constructor
  · intro h0
    have hne1 : (streamOf repo (repo.get_stream_key (some stream))).events ++ events ≠ [] :=
      fun h => hne (List.append_eq_nil.mp h).2
    have hne2 : (streamOf repo repo.stream_name).events ++ events ≠ [] :=
      fun h => hne (List.append_eq_nil.mp h).2
    rcases append_success_spec repo .Any stream events h0 hne1 hne2 with ⟨happ, _⟩
    exact appendOutcome_eq happ
  · intro h0
    exact appendOutcome_eq (append_conflict repo .Any stream events h0)

/-- Witness for the amended C3 at concrete inputs: position 0 succeeds, and after two
events the position is 1 so a second `Any` append conflicts. -/
theorem any_version_guard_amended_witness :
    (([9] : List Nat) ≠ [] ∧
      (((streamOf (InMemoryEventRepository.new Nat "t")
          ((InMemoryEventRepository.new Nat "t").get_stream_key (some "s"))).position = 0 →
        appendOutcome (InMemoryEventRepository.new Nat "t") .Any "s" [9] =
          some (.ok ([9],
            .Exact (((streamOf (InMemoryEventRepository.new Nat "t")
              ((InMemoryEventRepository.new Nat "t").get_stream_key (some "s"))).events ++
              [9]).length - 1)))) ∧
      ((streamOf (InMemoryEventRepository.new Nat "t")
          ((InMemoryEventRepository.new Nat "t").get_stream_key (some "s"))).position ≠ 0 →
        appendOutcome (InMemoryEventRepository.new Nat "t") .Any "s" [9] =
          some (.error (.VersionConflict
            ⟨.Any, .Exact (streamOf (InMemoryEventRepository.new Nat "t")
              ((InMemoryEventRepository.new Nat "t").get_stream_key (some "s"))).position⟩))))) :=
  ⟨by decide, any_version_guard_amended (InMemoryEventRepository.new Nat "t") "s" [9] (by decide)⟩

/-- Claim C4 counterexample: a successful `append` does not always strictly increase
the stream's version.  (1) The first append of a single event to a fresh stream
returns `Exact 0` while the version observed via `load` before the append was already
`Exact 0`.  (2) An empty batch appended at the matching version `Exact 0` succeeds and
returns `Exact 0` again, so the version after append B equals the version after
append A. -/
theorem version_monotonicity_cex :
    ((InMemoryEventRepository.new Nat "t").load (some "s") = some ([], .Exact 0) ∧
      appendOutcome (InMemoryEventRepository.new Nat "t") .NoStream "s" [7] =
        some (.ok ([7], .Exact 0)) ∧
      ¬ (0 : Nat) > 0) ∧
    (appendOutcome (appendRepo (InMemoryEventRepository.new Nat "t") .NoStream "s" [7])
        (.Exact 0) "s" ([] : List Nat) = some (.ok ([], .Exact 0))) := by
  decide

/-- Claim C4 (amended): for two successful appends A then B on the same stream where
B's batch is non-empty, the version returned by B is strictly greater than the version
returned by A (equivalently, strictly greater than the stream's position observed
between the two appends).  Strictness can fail only for empty batches or for the very
first append to a fresh stream, as the counterexample shows. -/
theorem version_monotonicity_amended {E : Type} (repo r1 r2 : InMemoryEventRepository E)
    (v1 v2 : RepositoryVersion Nat) (s : String) (b1 b2 evs1 evs2 : List E) (p1 p2 : Nat)
    (h1 : repo.append v1 s b1 = some (.ok (evs1, .Exact p1), r1))
    (h2 : r1.append v2 s b2 = some (.ok (evs2, .Exact p2), r2))
    (hb2 : b2 ≠ []) : p1 < p2 := by
  rcases append_ok_inversion h1 with ⟨hg1, hn11, hn12, hres1, hrepo1⟩
  rcases append_success_spec repo v1 s b1 hg1 hn11 hn12 with ⟨_, hname1, hkey1, _, _⟩
  rcases append_ok_inversion h2 with ⟨_, _, _, hres2, _⟩
  have hp1 : p1 = ((streamOf repo (repo.get_stream_key (some s))).events ++ b1).length - 1 := by
    have := congrArg Prod.snd hres1
    simp only at this
    exact RepositoryVersion.Exact.inj this
  have hkeys : r1.get_stream_key (some s) = repo.get_stream_key (some s) := by
    rw [get_stream_key_some, get_stream_key_some, hrepo1, hname1]
  have hcell : streamOf r1 (r1.get_stream_key (some s)) =
      ⟨(streamOf repo (repo.get_stream_key (some s))).events ++ b1,
        ((streamOf repo (repo.get_stream_key (some s))).events ++ b1).length - 1⟩ := by
    rw [hkeys, hrepo1]
    simp [streamOf, hkey1]
  have hp2 : p2 = ((streamOf r1 (r1.get_stream_key (some s))).events ++ b2).length - 1 := by
    have := congrArg Prod.snd hres2
    simp only at this
    exact RepositoryVersion.Exact.inj this
  rw [hcell] at hp2
  simp only [List.length_append] at hp1 hp2
  have hL1 : 0 < ((streamOf repo (repo.get_stream_key (some s))).events ++ b1).length :=
    List.length_pos.mpr hn11
  rw [List.length_append] at hL1
  have hb2len : 0 < b2.length := List.length_pos.mpr hb2
  omega

/-- Witness for the amended C4: append `[7]` then `[8, 9]` to the same fresh stream;
versions `Exact 0` then `Exact 2`, and `0 < 2`. -/
theorem version_monotonicity_amended_witness :
    (InMemoryEventRepository.new Nat "t").append .NoStream "s" [7] =
      some (.ok ([7], .Exact 0),
        appendRepo (InMemoryEventRepository.new Nat "t") .NoStream "s" [7]) ∧
    (appendRepo (InMemoryEventRepository.new Nat "t") .NoStream "s" [7]).append
        (.Exact 0) "s" [8, 9] =
      some (.ok ([8, 9], .Exact 2),
        appendRepo (appendRepo (InMemoryEventRepository.new Nat "t") .NoStream "s" [7])
          (.Exact 0) "s" [8, 9]) ∧
    ([8, 9] : List Nat) ≠ [] ∧ 0 < 2 :=
  have ha : (InMemoryEventRepository.new Nat "t").append .NoStream "s" [7] =
      some (.ok ([7], .Exact 0),
        appendRepo (InMemoryEventRepository.new Nat "t") .NoStream "s" [7]) := by decide
  have hb : (appendRepo (InMemoryEventRepository.new Nat "t") .NoStream "s" [7]).append
      (.Exact 0) "s" [8, 9] =
      some (.ok ([8, 9], .Exact 2),
        appendRepo (appendRepo (InMemoryEventRepository.new Nat "t") .NoStream "s" [7])
          (.Exact 0) "s" [8, 9]) := by decide
  ⟨ha, hb, by decide,
    version_monotonicity_amended (InMemoryEventRepository.new Nat "t") _ _ .NoStream
      (.Exact 0) "s" [7] [8, 9] [7] [8, 9] 0 2 ha hb (by decide)⟩

/-- Claim C2 counterexample: `load(Some id)` on a never-appended stream returns
`([], Exact 0)`, not `([], NoStream)`; moreover, after a merely *attempted* (failed)
append has created the empty cell, `load` on that still-never-successfully-appended
stream panics (slice `[0..1]` of an empty vector), so it returns neither. -/
theorem load_missing_stream_cex :
    (InMemoryEventRepository.new Nat "t").load (some "s") = some ([], .Exact 0) ∧
    (RepositoryVersion.Exact 0 : RepositoryVersion Nat) ≠ .NoStream ∧
    (appendRepo (InMemoryEventRepository.new Nat "t") (.Exact 5) "s" [7]).load (some "s") =
      none := by
  decide

/-- Claim C2 (amended): after any run of successful appends starting from the empty
repository, `load(Some id)` returns exactly the events appended to that stream, in
append order, paired with `Exact(position)`; in particular for a stream id that the
run never appended to it returns `([], Exact 0)` — not `([], NoStream)`. -/
theorem load_returns_append_order {E : Type} (name : String) (ops : List (AppendOp E))
    (repo' : InMemoryEventRepository E) (sid : String)
    (hrun : runAppends (InMemoryEventRepository.new E name) ops = some repo') :
    repo'.load (some sid) =
      some (eventsFor sid ops, .Exact ((eventsFor sid ops).length - 1)) := by
  have hgood : goodRepo name ops repo' := by
    have := runAppends_good ops [] (InMemoryEventRepository.new E name) repo'
      (goodRepo_nil name) hrun
    simpa using this
  obtain ⟨hname, hstreams, _⟩ := hgood
  have hkeyname : repo'.get_stream_key (some sid) = name ++ "/" ++ sid := by
    rw [get_stream_key_some, hname]
  cases hc : eventsFor sid ops with
  | nil =>
      have h0 : repo'.load (some sid) = some ([], .Exact 0) := by
        apply load_of_lookup_none
        rw [hkeyname, hstreams sid, hc]
        rfl
      rw [h0]
      rfl
  | cons a l =>
      have hlk : lookupStream repo'.state (repo'.get_stream_key (some sid)) =
          some ⟨a :: l, (a :: l).length - 1⟩ := by
        rw [hkeyname, hstreams sid, hc]
        rfl
      exact load_of_lookup_wf repo' (some sid) (a :: l) (List.cons_ne_nil a l) hlk

/-- Witness for the amended C2: one successful append of `[7]` to stream `s`; `load`
of `s` returns it with `Exact 0`, and `load` of the untouched stream `u` returns
`([], Exact 0)`. -/
theorem load_returns_append_order_witness :
    runAppends (InMemoryEventRepository.new Nat "t") [⟨.NoStream, "s", [7]⟩] =
      some ⟨"t", [("t/s", ⟨[7], 0⟩), ("t", ⟨[7], 0⟩)]⟩ ∧
    (⟨"t", [("t/s", ⟨[7], 0⟩), ("t", ⟨[7], 0⟩)]⟩ : InMemoryEventRepository Nat).load
        (some "s") =
      some (eventsFor "s" [⟨.NoStream, "s", [7]⟩],
        .Exact ((eventsFor "s" [⟨.NoStream, "s", [7]⟩]).length - 1)) ∧
    (⟨"t", [("t/s", ⟨[7], 0⟩), ("t", ⟨[7], 0⟩)]⟩ : InMemoryEventRepository Nat).load
        (some "u") =
      some (eventsFor "u" [⟨.NoStream, "s", [7]⟩],
        .Exact ((eventsFor "u" [⟨.NoStream, "s", [7]⟩]).length - 1)) :=
  have hrun : runAppends (InMemoryEventRepository.new Nat "t") [⟨.NoStream, "s", [7]⟩] =
      some ⟨"t", [("t/s", ⟨[7], 0⟩), ("t", ⟨[7], 0⟩)]⟩ := by decide
  ⟨hrun, load_returns_append_order "t" _ _ "s" hrun,
    load_returns_append_order "t" _ _ "u" hrun⟩

/-- Claim C8: for every sequence of successful `append` calls to per-stream ids of the
versioned in-memory event repository (starting empty), the category read `load(None)`
returns exactly the concatenation of all appended batches in the order the appends
committed — so every appended event appears exactly once, in commit order. -/
theorem category_coverage {E : Type} (name : String) (ops : List (AppendOp E))
    (repo' : InMemoryEventRepository E)
    (hrun : runAppends (InMemoryEventRepository.new E name) ops = some repo') :
    repo'.load none = some (allEvents ops, .Exact ((allEvents ops).length - 1)) := by
  have hgood : goodRepo name ops repo' := by
    have := runAppends_good ops [] (InMemoryEventRepository.new E name) repo'
      (goodRepo_nil name) hrun
    simpa using this
  obtain ⟨hname, _, hbase⟩ := hgood
  have hkeyname : repo'.get_stream_key none = name := by
    rw [get_stream_key_none, hname]
  cases hc : allEvents ops with
  | nil =>
      have h0 : repo'.load none = some ([], .Exact 0) := by
        apply load_of_lookup_none
        rw [hkeyname, hbase, hc]
        rfl
      rw [h0]
      rfl
  | cons a l =>
      have hlk : lookupStream repo'.state (repo'.get_stream_key none) =
          some ⟨a :: l, (a :: l).length - 1⟩ := by
        rw [hkeyname, hbase, hc]
        rfl
      exact load_of_lookup_wf repo' none (a :: l) (List.cons_ne_nil a l) hlk

/-- Witness for C8: two successful appends to distinct streams; the category read
returns both batches concatenated in commit order with the category position. -/
theorem category_coverage_witness :
    runAppends (InMemoryEventRepository.new Nat "t")
        [⟨.NoStream, "s", [1, 2]⟩, ⟨.NoStream, "u", [9]⟩] =
      some ⟨"t", [("t/s", ⟨[1, 2], 1⟩), ("t", ⟨[1, 2, 9], 2⟩), ("t/u", ⟨[9], 0⟩)]⟩ ∧
    (⟨"t", [("t/s", ⟨[1, 2], 1⟩), ("t", ⟨[1, 2, 9], 2⟩), ("t/u", ⟨[9], 0⟩)]⟩ :
        InMemoryEventRepository Nat).load none =
      some (allEvents [⟨.NoStream, "s", [1, 2]⟩, ⟨.NoStream, "u", [9]⟩],
        .Exact ((allEvents
          [(⟨.NoStream, "s", [1, 2]⟩ : AppendOp Nat), ⟨.NoStream, "u", [9]⟩]).length - 1)) :=
  have hrun : runAppends (InMemoryEventRepository.new Nat "t")
      [⟨.NoStream, "s", [1, 2]⟩, ⟨.NoStream, "u", [9]⟩] =
      some ⟨"t", [("t/s", ⟨[1, 2], 1⟩), ("t", ⟨[1, 2, 9], 2⟩), ("t/u", ⟨[9], 0⟩)]⟩ := by
    decide
  ⟨hrun, category_coverage "t" _ _ hrun⟩

/-- Claim C9: calling `append` with an empty batch on a stream whose stored event list
is empty, under a guard that passes (`Any`, `NoStream`, `StreamExists`, or `Exact 0`),
reaches the `events.len() - 1` underflow with `len = 0` (modelled as `none`, a panic);
and with the spec's precondition that batches are non-empty that branch is unreachable:
`append` is total. -/
theorem append_underflow_and_totality {E : Type} :
    (∀ (repo : InMemoryEventRepository E) (s : String) (v : RepositoryVersion Nat),
      (streamOf repo (repo.get_stream_key (some s))).events = [] →
      (streamOf repo (repo.get_stream_key (some s))).position = 0 →
      (v = .Any ∨ v = .NoStream ∨ v = .StreamExists ∨ v = .Exact 0) →
      repo.append v s [] = none) ∧
    (∀ (repo : InMemoryEventRepository E) (s : String) (v : RepositoryVersion Nat)
      (events : List E), events ≠ [] → (repo.append v s events).isSome) := by
  constructor
  · intro repo s v hev hpos hv
    have hidx : index_from_version v = 0 := by
      rcases hv with h | h | h | h <;> subst h <;> rfl
    refine append_none_of_new_nil repo v s [] (by rw [hpos, hidx]) (by rw [hev]; rfl)
  · intro repo s v events hne
    exact append_isSome_of_ne_nil repo v s events hne

/-- Witness for C9: the panic at a concrete empty batch on the fresh stream `s` of an
empty repository, and totality at the non-empty batch `[5]`. -/
theorem append_underflow_and_totality_witness :
    (InMemoryEventRepository.new Nat "t").append .Any "s" [] = none ∧
    ((InMemoryEventRepository.new Nat "t").append .Any "s" [5]).isSome :=
  ⟨(@append_underflow_and_totality Nat).1 (InMemoryEventRepository.new Nat "t") "s"
      .Any (by decide) (by decide) (Or.inl rfl),
    (@append_underflow_and_totality Nat).2 (InMemoryEventRepository.new Nat "t") "s"
      .Any [5] (by decide)⟩

/-- Claim C10: for `InMemoryStateRepository::save`, the expected versions `NoStream`,
`StreamExists` and `Exact(0)` are interchangeable (each compares as the number 0,
`Exact(v)` as `v`); a save whose expected numeric value equals the stored version's
numeric value replaces the stored state and sets the stored version to `Exact(n + 1)`
where `n` is that numeric value; a mismatched expected version returns
`VersionConflict` and leaves state and version unchanged; and expected version `Any`
always fails with `ExactStreamVersionMustBeKnown` (never a `VersionConflict`), also
leaving state and version unchanged. -/
theorem state_repository_save_spec {State : Type} :
    (version_to_usize .NoStream = .ok 0 ∧ version_to_usize .StreamExists = .ok 0 ∧
      (∀ v : Nat, version_to_usize (.Exact v) = .ok v)) ∧
    (∀ (repo : VersionedState State) (version : RepositoryVersion Nat) (st : State)
      (n m : Nat),
      version_to_usize repo.version = .ok n → version_to_usize version = .ok m →
      (n = m → InMemoryStateRepository.save repo version st =
        (.ok st, ⟨st, .Exact (n + 1)⟩)) ∧
      (n ≠ m → InMemoryStateRepository.save repo version st =
        (.error (.VersionConflict ⟨repo.version, version⟩), repo))) ∧
    (∀ (repo : VersionedState State) (st : State),
      InMemoryStateRepository.save repo .Any st =
        (.error (.RepoErr .ExactStreamVersionMustBeKnown), repo)) := by
  refine ⟨⟨rfl, rfl, fun v => rfl⟩, ?_, ?_⟩
  · intro repo version st n m hn hm
    constructor
    · intro hnm
      subst hnm
      simp [InMemoryStateRepository.save, version_check, bump_version, hn, hm]
    · intro hnm
      simp [InMemoryStateRepository.save, version_check, hn, hm, hnm]
  · intro repo st
    cases hc : repo.version <;>
      simp [InMemoryStateRepository.save, version_check, version_to_usize, hc]

/-- Witness for C10 at concrete inputs: the initial cell (version `StreamExists`,
numeric 0) accepts a save at `Exact 0` and moves to `Exact 1`; the same cell refuses
`Exact 3`; and `Any` fails with the repository error. -/
theorem state_repository_save_spec_witness :
    (version_to_usize .NoStream = .ok 0 ∧ version_to_usize .StreamExists = .ok 0 ∧
      (∀ v : Nat, version_to_usize (.Exact v) = .ok v)) ∧
    ((0 : Nat) = 0 →
      InMemoryStateRepository.save (VersionedState.new (0 : Nat)) (.Exact 0) 5 =
        (.ok 5, ⟨5, .Exact (0 + 1)⟩)) ∧
    ((0 : Nat) ≠ 3 →
      InMemoryStateRepository.save (VersionedState.new (0 : Nat)) (.Exact 3) 5 =
        (.error (.VersionConflict ⟨(VersionedState.new (0 : Nat)).version, .Exact 3⟩),
          VersionedState.new (0 : Nat))) ∧
    InMemoryStateRepository.save (VersionedState.new (0 : Nat)) .Any 5 =
      (.error (.RepoErr .ExactStreamVersionMustBeKnown), VersionedState.new (0 : Nat)) :=
  ⟨(@state_repository_save_spec Nat).1,
    ((@state_repository_save_spec Nat).2.1 (VersionedState.new 0) (.Exact 0) 5 0 0
      rfl rfl).1,
    ((@state_repository_save_spec Nat).2.1 (VersionedState.new 0) (.Exact 3) 5 0 3
      rfl rfl).2,
    (@state_repository_save_spec Nat).2.2 (VersionedState.new 0) 5⟩

/-- Claim C6: whenever `decide` refuses with a domain error on the loaded (folded)
state, `execute` surfaces exactly that error as `DecideErr`, performs no append and no
retry, and leaves the repository state — every stream and its version — unchanged. -/
theorem domain_error_purity {σ E Sid V RepoErr Ctx State Cmd DomErr : Type}
    (repo : RepoModel σ E Sid V RepoErr) (dec : DeciderModel Ctx State Cmd E DomErr)
    (stream_id_from : E → Sid) (s : σ) (sid : Sid) (ctx : Ctx) (cmd : Cmd)
    (retrys : Option Nat) (e : DomErr) (evts : List E) (ver : RepositoryVersion V)
    (hload : repo.load s (some sid) = some (.ok (evts, ver)))
    (hdec : dec.decide ctx (evts.foldl dec.evolve dec.init) cmd = .error e)
    (hr : 2 ≤ retrys.getD 20) :
    execute repo dec stream_id_from s (.Existing sid) ctx cmd retrys =
      some (.error (.DecideErr e), s) := by
  obtain ⟨k, hk⟩ : ∃ k, retrys.getD 20 - 1 = k + 1 := ⟨retrys.getD 20 - 2, by omega⟩
  simp only [execute, hload]
  rw [hk]
  simp only [executeLoop, hdec]

/-- Witness for C6: the always-refusing decider over the empty in-memory repository:
the domain error 42 surfaces and the repository is returned unchanged. -/
theorem domain_error_purity_witness :
    (InMemoryEventRepository.model Nat).load (InMemoryEventRepository.new Nat "t")
      (some "s") = some (.ok ([], .Exact 0)) ∧
    constErrDecider.decide () (List.foldl constErrDecider.evolve constErrDecider.init [])
      () = .error 42 ∧
    2 ≤ (none : Option Nat).getD 20 ∧
    execute (InMemoryEventRepository.model Nat) constErrDecider (fun e => toString e)
        (InMemoryEventRepository.new Nat "t") (.Existing "s") () () none =
      some (.error (.DecideErr 42), InMemoryEventRepository.new Nat "t") :=
  ⟨rfl, rfl, by decide,
    domain_error_purity (InMemoryEventRepository.model Nat) constErrDecider
      (fun e => toString e) (InMemoryEventRepository.new Nat "t") "s" () () none 42 []
      (.Exact 0) rfl rfl (by decide)⟩

/-- Claim C7: with stream state `New`, if `decide` yields no events then `execute`
returns `[]` and the repository is unchanged (no stream is created); if `decide`
yields `e :: es` then the append targets the stream id derived from the entity id of
the first produced event, `event_entity_id_into(get_id(e))` — the stream id is only
computed from `decide`'s output. -/
theorem new_stream_first_event_derivation {σ E EId Sid V RepoErr Ctx State Cmd DomErr : Type}
    (repo : RepoModel σ E Sid V RepoErr) (dec : DeciderModel Ctx State Cmd E DomErr)
    (get_id : E → EId) (event_entity_id_into : EId → Sid) (s : σ) (ctx : Ctx) (cmd : Cmd)
    (retrys : Option Nat) (hr : 2 ≤ retrys.getD 20) :
    (dec.decide ctx dec.init cmd = .ok [] →
      execute repo dec (streamIdFromEvent get_id event_entity_id_into) s .New ctx cmd
        retrys = some (.ok [], s)) ∧
    (∀ (e0 : E) (es appended : List E) (v' : RepositoryVersion V) (s' : σ),
      dec.decide ctx dec.init cmd = .ok (e0 :: es) →
      repo.append s .NoStream (event_entity_id_into (get_id e0)) (e0 :: es) =
        some (.ok (appended, v'), s') →
      execute repo dec (streamIdFromEvent get_id event_entity_id_into) s .New ctx cmd
        retrys = some (.ok appended, s')) := by
  obtain ⟨k, hk⟩ : ∃ k, retrys.getD 20 - 1 = k + 1 := ⟨retrys.getD 20 - 2, by omega⟩
  constructor
  · intro hdec
    simp only [execute]
    rw [hk]
    simp only [executeLoop, List.foldl_nil, hdec]
  · intro e0 es appended v' s' hdec happ
    simp only [execute]
    rw [hk]
    simp only [executeLoop, List.foldl_nil, hdec, streamIdFromEvent, happ]

/-- Witness for C7: over the empty in-memory repository, the empty decider returns
`[]` leaving the repository untouched, and the `[41]` decider appends to stream
`t/41` — the id derived from the first event. -/
theorem new_stream_first_event_derivation_witness :
    (2 ≤ (none : Option Nat).getD 20) ∧
    execute (InMemoryEventRepository.model Nat) emptyDecider
        (streamIdFromEvent (fun e => e) (fun n => toString n))
        (InMemoryEventRepository.new Nat "t") .New () () none =
      some (.ok [], InMemoryEventRepository.new Nat "t") ∧
    execute (InMemoryEventRepository.model Nat) const41Decider
        (streamIdFromEvent (fun e => e) (fun n => toString n))
        (InMemoryEventRepository.new Nat "t") .New () () none =
      some (.ok [41], ⟨"t", [("t/41", ⟨[41], 0⟩), ("t", ⟨[41], 0⟩)]⟩) :=
  ⟨by decide,
    (new_stream_first_event_derivation (InMemoryEventRepository.model Nat) emptyDecider
      (fun e => e) (fun n => toString n) (InMemoryEventRepository.new Nat "t") () () none
      (by decide)).1 rfl,
    (new_stream_first_event_derivation (InMemoryEventRepository.model Nat) const41Decider
      (fun e => e) (fun n => toString n) (InMemoryEventRepository.new Nat "t") () () none
      (by decide)).2 41 [] [41] (.Exact 0)
      ⟨"t", [("t/41", ⟨[41], 0⟩), ("t", ⟨[41], 0⟩)]⟩ rfl (by decide)⟩

/-- Under permanent contention every iteration of the retry loop makes exactly one
(`decide`, `append`) attempt, so the counter advances by the fuel. -/
theorem conflict_loop_counts (fuel : Nat) :
    ∀ (s : Nat) (hist : List Nat) (ver : RepositoryVersion Nat),
      executeLoop conflictRepoModel oneEventDecider (fun _ => "s") .New () () fuel s ()
        hist ver = some (.error .OccMaxRetries, s + fuel) := by
  induction fuel with
  | zero => intro s hist ver; rfl
  | succ n ih =>
      intro s hist ver
      have hstep : executeLoop conflictRepoModel oneEventDecider (fun _ => "s") .New () ()
          (n + 1) s () hist ver =
          executeLoop conflictRepoModel oneEventDecider (fun _ => "s") .New () () n (s + 1)
            () (hist ++ []) (.Exact 0) := rfl
      rw [hstep, ih (s + 1) (hist ++ []) (.Exact 0)]
      have : s + 1 + n = s + (n + 1) := by omega
      rw [this]

/-- Claim C5 counterexample: with the default `retrys = None` and a repository whose
`append` always fails with a `VersionConflict`, `execute` performs 19 decide/append
attempts — not 20 — before returning `OccMaxRetries` (`for r in 1..20` runs 19
iterations). -/
theorem retry_attempt_count_cex :
    execute conflictRepoModel oneEventDecider (fun _ => "s") 0 .New () () none =
      some (.error .OccMaxRetries, 19) ∧ (19 : Nat) ≠ 20 :=
  ⟨by decide, by decide⟩

/-- Claim C5 (amended): `execute` makes up to `retrys.unwrap_or(20) - 1` decide/append
attempts (19 by default, since `for r in 1..n` iterates `n - 1` times); with an
always-conflicting repository it performs exactly that many attempts and returns
`OccMaxRetries`. -/
theorem retry_attempt_count_amended (retrys : Option Nat) (s0 : Nat) :
    execute conflictRepoModel oneEventDecider (fun _ => "s") s0 .New () () retrys =
      some (.error .OccMaxRetries, s0 + (retrys.getD 20 - 1)) :=
  conflict_loop_counts (retrys.getD 20 - 1) s0 [] .NoStream

end Epoch
